import Mathlib

/-!
Verification of the activity-feed / uniqueness-guard design of the
CivilDIY microservices repository.

The repository ships the Book Review Service and Feed Generator Service
only through their design documents (`BOOK_SERVICES_README.md`,
`IMPLEMENTATION_SUMMARY.md`, `service_discovery/README.md`); the
`book-review-service/main.py` and `feed-generator-service/main.py`
implementations are not part of the source tree.  The definitions below
are therefore a shallow embedding modelled from the specification's
component contracts (Uniqueness Guard, View Maintainer, Enrichment
Resolver, Feed Reader), kept consistent with the pseudo-code and cache
scenarios in the repository's documents.
-/

/-! ## Generic association-list primitives (Redis-style GET / SET / DEL) -/

/-- Modelled from the spec: a key-value lookup in the Cache Store
(`GET key`).  The first binding for the key wins. -/
def lookupKey {κ α : Type} [DecidableEq κ] (k : κ) : List (κ × α) → Option α
  | [] => none
  | p :: rest => if p.1 = k then some p.2 else lookupKey k rest

/-- Modelled from the spec: removal of every binding for a key
(`DEL key`). -/
def eraseKey {κ α : Type} [DecidableEq κ] (k : κ) : List (κ × α) → List (κ × α)
  | [] => []
  | p :: rest => if p.1 = k then eraseKey k rest else p :: eraseKey k rest

/-- Modelled from the spec: overwrite of a key's binding (`SET key value`). -/
def insertKey {κ α : Type} [DecidableEq κ] (k : κ) (a : α) (l : List (κ × α)) :
    List (κ × α) :=
  (k, a) :: eraseKey k l

/-! ## Uniqueness Store (MongoDB reviews collection) -/

/-- Modelled from the spec: a `UniquenessRecord` / review document, keyed by
`(user_id, book_id)` with the mutable content fields of the reviews
collection. -/
structure Review where
  review_id : Nat
  book_id : Nat
  user_id : Nat
  rating : Nat
  content : String
  tags : List String
  spoiler_warning : Bool
  helpful_count : Nat
  deriving DecidableEq, Repr

/-- The persistent Uniqueness Store: the list of review documents. -/
abbrev ReviewStore := List Review

/-- Modelled from the spec: the Uniqueness Store query for the composite key
`(actorId, targetId)` = `(user_id, book_id)`. -/
def findRecord (store : ReviewStore) (u b : Nat) : Option Review :=
  store.find? (fun r => decide (r.user_id = u) && decide (r.book_id = b))

/-- Whether a `UniquenessRecord` exists for the key. -/
def hasRecord (store : ReviewStore) (u b : Nat) : Bool :=
  (findRecord store u b).isSome

/-- Modelled from the spec: insert under the `UNIQUE(book_id, user_id)`
constraint.  Returns `(true, newStore)` on success and `(false, store)` on a
constraint rejection (surfaced to the caller as 409 Conflict), leaving the
store unchanged. -/
def insertReview (store : ReviewStore) (r : Review) : Bool × ReviewStore :=
  if hasRecord store r.user_id r.book_id then (false, store) else (true, r :: store)

/-- The per-key at-most-one invariant of the Uniqueness Store. -/
def keysNodup (store : ReviewStore) : Prop :=
  store.Pairwise (fun a b => (a.user_id, a.book_id) ≠ (b.user_id, b.book_id))

/-! ## Dedup cache (Redis positive / negative entries) -/

/-- Modelled from the spec: the positive CacheEntry
(`user:{u}:book:{b}:review` → existing record identifier), carrying its TTL. -/
structure PosEntry where
  review_id : Nat
  ttl : Nat
  deriving DecidableEq, Repr

/-- Modelled from the spec: the dedup Cache Store, holding positive and
negative entries keyed by `(user_id, book_id)`.  A negative entry
(`user:{u}:book:{b}:no_review`) stores just its TTL. -/
structure DedupCache where
  pos : List ((Nat × Nat) × PosEntry)
  neg : List ((Nat × Nat) × Nat)
  deriving DecidableEq, Repr

/-- Positive-cache TTL: 1 hour (3600 s). -/
def posTTL : Nat := 3600

/-- Negative-cache TTL: 5 minutes (300 s). -/
def negTTL : Nat := 300

def getPos (c : DedupCache) (u b : Nat) : Option PosEntry :=
  lookupKey (u, b) c.pos

def getNeg (c : DedupCache) (u b : Nat) : Option Nat :=
  lookupKey (u, b) c.neg

def setPos (c : DedupCache) (u b : Nat) (e : PosEntry) : DedupCache :=
  { c with pos := insertKey (u, b) e c.pos }

def setNeg (c : DedupCache) (u b : Nat) (ttl : Nat) : DedupCache :=
  { c with neg := insertKey (u, b) ttl c.neg }

def delPos (c : DedupCache) (u b : Nat) : DedupCache :=
  { c with pos := eraseKey (u, b) c.pos }

def delNeg (c : DedupCache) (u b : Nat) : DedupCache :=
  { c with neg := eraseKey (u, b) c.neg }

/-- Cache-entry exclusivity: for every key at most one of the positive and
negative entries is present. -/
def exclusiveCache (c : DedupCache) : Prop :=
  ∀ u b, getPos c u b = none ∨ getNeg c u b = none

/-! ## Uniqueness Guard -/

/-- Result of `checkAndReserve`: `Duplicate` carries the existing record
identifier when one is known. -/
inductive CheckResult where
  | Unique : CheckResult
  | Duplicate : Option Nat → CheckResult
  deriving DecidableEq, Repr

/-- Modelled from the spec: `checkAndReserve(actorId, targetId)`, steps 1-3 of
the Uniqueness Guard.  Positive cache hit → `Duplicate`; else negative cache
hit → `Unique`; else consult the Uniqueness Store, writing a positive entry
(long TTL) on a hit and a negative entry (short TTL) on a miss.  Returns the
verdict and the updated cache. -/
def checkAndReserve (cache : DedupCache) (store : ReviewStore) (u b : Nat) :
    CheckResult × DedupCache :=
  match getPos cache u b with
  | some e => (CheckResult.Duplicate (some e.review_id), cache)
  | none =>
    match getNeg cache u b with
    | some _ => (CheckResult.Unique, cache)
    | none =>
      match findRecord store u b with
      | some r =>
        (CheckResult.Duplicate (some r.review_id),
         setPos cache u b { review_id := r.review_id, ttl := posTTL })
      | none => (CheckResult.Unique, setNeg cache u b negTTL)

/-- Modelled from the spec: step 5 of the Uniqueness Guard — on successful
insert, write/refresh the positive CacheEntry and clear any negative
CacheEntry for the key. -/
def onInsertSuccess (c : DedupCache) (u b rid : Nat) : DedupCache :=
  delNeg (setPos c u b { review_id := rid, ttl := posTTL }) u b

/-- Modelled from the spec: step 6 of the Uniqueness Guard — on deletion of
the underlying record, delete both cache entries for the key. -/
def releaseCache (c : DedupCache) (u b : Nat) : DedupCache :=
  delNeg (delPos c u b) u b

/-! ## Write path of the Book Review Service -/

/-- Modelled from the spec: a domain event on the `reviews-events` channel. -/
structure ReviewEvent where
  event_type : String
  timestamp : Nat
  review_id : Nat
  book_id : Nat
  user_id : Nat
  rating : Nat
  deriving DecidableEq, Repr

/-- The state touched by the write path: the Uniqueness Store, the dedup
cache, and the list of published events (newest first). -/
structure WriteState where
  store : ReviewStore
  cache : DedupCache
  published : List ReviewEvent
  deriving DecidableEq, Repr

/-- Modelled from the spec: outcome of the cross-service validation call
`GET /api/books/{id}` against the external catalog collaborator. -/
inductive CatalogResp where
  | ok : CatalogResp
  | notFound : CatalogResp
  | unavailable : CatalogResp
  deriving DecidableEq, Repr

/-- HTTP-level outcome of `POST /api/reviews`:
201 Created / 409 Conflict / 404 Not Found / 503 Service Unavailable. -/
inductive CreateResult where
  | created : Nat → CreateResult
  | duplicate : CreateResult
  | bookMissing : CreateResult
  | catalogDown : CreateResult
  deriving DecidableEq, Repr

/-- The `review.created` event published on a successful insert. -/
def mkCreatedEvent (r : Review) (ts : Nat) : ReviewEvent :=
  { event_type := "review.created", timestamp := ts, review_id := r.review_id,
    book_id := r.book_id, user_id := r.user_id, rating := r.rating }

/-- Modelled from the spec: the `create_review` write path.  It first
validates the book against the catalog collaborator (404 if missing, 503 if
the catalog is unreachable, state untouched in both cases), then runs
`checkAndReserve`, then attempts the constrained insert; a constraint
rejection is surfaced as `duplicate` post-hoc; on success the positive cache
is written, the negative cache cleared, and a `review.created` event
published. -/
def createReview (catalog : CatalogResp) (st : WriteState) (r : Review) (ts : Nat) :
    CreateResult × WriteState :=
  match catalog with
  | CatalogResp.notFound => (CreateResult.bookMissing, st)
  | CatalogResp.unavailable => (CreateResult.catalogDown, st)
  | CatalogResp.ok =>
    match checkAndReserve st.cache st.store r.user_id r.book_id with
    | (CheckResult.Duplicate _, c1) => (CreateResult.duplicate, { st with cache := c1 })
    | (CheckResult.Unique, c1) =>
      match insertReview st.store r with
      | (false, _) => (CreateResult.duplicate, { st with cache := c1 })
      | (true, s1) =>
        (CreateResult.created r.review_id,
         { store := s1, cache := onInsertSuccess c1 r.user_id r.book_id r.review_id,
           published := mkCreatedEvent r ts :: st.published })

/-- Modelled from the spec: the record-level effect of `PUT /api/reviews/{id}`
— only the mutable content fields (rating, content) of the addressed record
change; the key fields are untouched. -/
def applyUpdate (rid rating2 : Nat) (content2 : String) (r : Review) : Review :=
  if r.review_id = rid then { r with rating := rating2, content := content2 } else r

/-- Modelled from the spec: the update write path (Scenario 3) — MongoDB
update of the addressed record, no cache change. -/
def updateReview (st : WriteState) (rid rating2 : Nat) (content2 : String) :
    WriteState :=
  { st with store := st.store.map (applyUpdate rid rating2 content2) }

/-- The key triple of a record (identifier and composite uniqueness key). -/
def reviewKey (r : Review) : Nat × Nat × Nat := (r.review_id, r.user_id, r.book_id)

/-! ## Concurrent insert race (step 4 of the Uniqueness Guard) -/

/-- Resolution of one `checkAndReserve+insert` attempt. -/
inductive AttemptOutcome where
  | success : AttemptOutcome
  | duplicate : AttemptOutcome
  deriving DecidableEq, Repr

/-- A fresh review document for the key, as built by an attempt. -/
def freshReview (u b rid : Nat) : Review :=
  { review_id := rid, book_id := b, user_id := u, rating := 5, content := "",
    tags := [], spoiler_warning := false, helpful_count := 0 }

/-- Modelled from the spec: a sequentially consistent run of M concurrent
`checkAndReserve+insert` attempts for the same key.  Each flag records
whether that attempt's `checkAndReserve` step returned `Unique` (the race
window between steps 3 and 4 makes this adversarial); attempts that saw
`Unique` proceed to the constrained insert, the others resolve `Duplicate`
from the cache.  A rejected insert resolves `Duplicate` post-hoc. -/
def runAttempts (u b : Nat) : List Bool → ReviewStore → Nat →
    List AttemptOutcome × ReviewStore
  | [], s, _ => ([], s)
  | f :: fs, s, rid =>
    if f then
      match insertReview s (freshReview u b rid) with
      | (true, s1) =>
        let rest := runAttempts u b fs s1 (rid + 1)
        (AttemptOutcome.success :: rest.1, rest.2)
      | (false, _) =>
        let rest := runAttempts u b fs s (rid + 1)
        (AttemptOutcome.duplicate :: rest.1, rest.2)
    else
      let rest := runAttempts u b fs s (rid + 1)
      (AttemptOutcome.duplicate :: rest.1, rest.2)

/-! ## View Maintainer (Feed Generator read model) -/

/-- Cap of the global feed list (`feed:activity:global`). -/
def globalCap : Nat := 1000

/-- Cap of each per-actor feed list (`feed:activity:user:{id}`). -/
def perUserCap : Nat := 100

/-- Modelled from the spec: an `EnrichedActivityItem` as maintained by the
View Maintainer (derived, never mutated after creation). -/
structure EnrichedActivityItem where
  targetId : Nat
  actorId : Nat
  actorName : String
  kind : String
  timestamp : Nat
  title : Option String
  body : Option String
  ratingInfo : Option Nat
  referencedEntityName : Option String
  deriving DecidableEq, Repr

/-- Modelled from the spec: the deterministic content hash of
`{kind, actorId, targetId, timestamp}` used for handler-level
de-duplication under at-least-once delivery. -/
def itemHash (it : EnrichedActivityItem) : String × Nat × Nat × Nat :=
  (it.kind, it.actorId, it.targetId, it.timestamp)

/-- Modelled from the spec: the atomic push-to-front + trim-to-cap of the
View Maintainer, with handler-level content-hash de-duplication (an item
whose hash is already in the list is not re-applied). -/
def pushTrim (cap : Nat) (it : EnrichedActivityItem) (l : List EnrichedActivityItem) :
    List EnrichedActivityItem :=
  if l.any (fun x => decide (itemHash x = itemHash it)) then l
  else (it :: l).take cap

/-- The materialized feed views: the global list and the per-actor lists. -/
structure FeedViews where
  globalFeed : List EnrichedActivityItem
  userFeeds : List (Nat × List EnrichedActivityItem)
  deriving DecidableEq, Repr

def emptyViews : FeedViews := { globalFeed := [], userFeeds := [] }

/-- The per-actor feed list for an actor (empty if none exists yet). -/
def userFeed (v : FeedViews) (a : Nat) : List EnrichedActivityItem :=
  (lookupKey a v.userFeeds).getD []

/-- Modelled from the spec: the View Maintainer's handling of one enriched
item — push-to-front + trim on the global list and on the item's per-actor
list. -/
def applyEvent (v : FeedViews) (it : EnrichedActivityItem) : FeedViews :=
  { globalFeed := pushTrim globalCap it v.globalFeed,
    userFeeds := insertKey it.actorId
      (pushTrim perUserCap it (userFeed v it.actorId)) v.userFeeds }

/-- Applying a whole sequence of enriched items, oldest first. -/
def applyAll (v : FeedViews) (items : List EnrichedActivityItem) : FeedViews :=
  items.foldl applyEvent v

/-- The cap invariant: every maintained list is within its configured cap. -/
def capOK (v : FeedViews) : Prop :=
  v.globalFeed.length ≤ globalCap ∧ ∀ p ∈ v.userFeeds, p.2.length ≤ perUserCap

/-! ## Enrichment Resolver -/

/-- Modelled from the spec: outcome of the bounded-timeout call
`GET /catalogEntity/{targetId}` to the external catalog collaborator —
a 2xx response with title and owner name, a non-2xx response, a timeout,
or a network error. -/
inductive CatalogFetch where
  | success : String → String → CatalogFetch
  | httpError : Nat → CatalogFetch
  | timeout : CatalogFetch
  | networkError : CatalogFetch
  deriving DecidableEq, Repr

/-- Whether the catalog call failed (timeout, non-2xx, or network error). -/
def isFailure : CatalogFetch → Bool
  | CatalogFetch.success _ _ => false
  | _ => true

/-- Sentinel title used by the fallback enrichment. -/
def unknownTitle : String := "Unknown Book"

/-- Sentinel author used by the fallback enrichment. -/
def unknownAuthor : String := "Unknown Author"

/-- Modelled from the spec: `enrich_review_event` — on success return the
fetched title and author name; on any failure return the sentinel fallback
instead of an error. -/
def enrichReviewEvent : CatalogFetch → String × String
  | CatalogFetch.success t a => (t, a)
  | _ => (unknownTitle, unknownAuthor)

/-- The `EnrichedActivityItem` built from a review event and an enrichment
result. -/
def itemOfReviewEvent (e : ReviewEvent) (actorName : String)
    (enr : String × String) : EnrichedActivityItem :=
  { targetId := e.book_id, actorId := e.user_id, actorName := actorName,
    kind := e.event_type, timestamp := e.timestamp,
    title := some enr.1, body := none, ratingInfo := some e.rating,
    referencedEntityName := some enr.2 }

/-- Modelled from the spec: the review-event handler of the Feed Generator —
enrich (with fallback), then hand the item to the View Maintainer. -/
def onReviewEvent (fetch : CatalogFetch) (actorName : String) (e : ReviewEvent)
    (v : FeedViews) : FeedViews :=
  applyEvent v (itemOfReviewEvent e actorName (enrichReviewEvent fetch))

/-! ## Feed Reader -/

/-- Modelled from the spec: `getGlobal(limit, offset)` — an offset/limit
slice over the maintained global list. -/
def getGlobal (v : FeedViews) (limit offset : Nat) : List EnrichedActivityItem :=
  (v.globalFeed.drop offset).take limit

/-- Modelled from the spec: `getForActor(actorId, limit, offset)` — an
offset/limit slice over the actor's maintained list. -/
def getForActor (v : FeedViews) (a limit offset : Nat) : List EnrichedActivityItem :=
  ((userFeed v a).drop offset).take limit

/-! ## Concrete sample values used in closed evaluations -/

/-- The empty dedup cache. -/
def emptyCache : DedupCache := { pos := [], neg := [] }

/-- A minimal enriched item: actor 1, target `tgt`, timestamp `ts`. -/
def sampleItem (tgt ts : Nat) : EnrichedActivityItem :=
  { targetId := tgt, actorId := 1, actorName := "u", kind := "review.created",
    timestamp := ts, title := none, body := none, ratingInfo := none,
    referencedEntityName := none }

/-- A sample review event. -/
def sampleEvent : ReviewEvent :=
  { event_type := "review.created", timestamp := 7, review_id := 9, book_id := 42,
    user_id := 123, rating := 5 }

/-! ## Helper lemmas: association-list laws -/

theorem lookupKey_insertKey_self {κ α : Type} [DecidableEq κ] (k : κ) (a : α)
    (l : List (κ × α)) : lookupKey k (insertKey k a l) = some a := by
  simp [insertKey, lookupKey]

theorem lookupKey_eraseKey_self {κ α : Type} [DecidableEq κ] (k : κ)
    (l : List (κ × α)) : lookupKey k (eraseKey k l) = none := by
  induction l with
  | nil => rfl
  | cons p rest ih =>
    by_cases h : p.1 = k
    · simpa [eraseKey, h] using ih
    · simpa [eraseKey, lookupKey, h] using ih

theorem lookupKey_eraseKey_ne {κ α : Type} [DecidableEq κ] {k j : κ} (h : j ≠ k)
    (l : List (κ × α)) : lookupKey j (eraseKey k l) = lookupKey j l := by
  induction l with
  | nil => rfl
  | cons p rest ih =>
    by_cases hp : p.1 = k
    · have hkj : k ≠ j := fun hh => h hh.symm
      simp [eraseKey, hp, lookupKey, hkj, ih]
    · simp [eraseKey, hp, lookupKey, ih]

theorem lookupKey_insertKey_ne {κ α : Type} [DecidableEq κ] {k j : κ} (h : j ≠ k)
    (a : α) (l : List (κ × α)) : lookupKey j (insertKey k a l) = lookupKey j l := by
  have hk : k ≠ j := fun hh => h hh.symm
  simp [insertKey, lookupKey, hk, lookupKey_eraseKey_ne h]

theorem lookupKey_insertKey {κ α : Type} [DecidableEq κ] (k j : κ) (a : α)
    (l : List (κ × α)) :
    lookupKey j (insertKey k a l) = if j = k then some a else lookupKey j l := by
  by_cases h : j = k
  · subst h; simp [lookupKey_insertKey_self]
  · simp [h, lookupKey_insertKey_ne h]

theorem lookupKey_eraseKey {κ α : Type} [DecidableEq κ] (k j : κ)
    (l : List (κ × α)) :
    lookupKey j (eraseKey k l) = if j = k then none else lookupKey j l := by
  by_cases h : j = k
  · subst h; simp [lookupKey_eraseKey_self]
  · simp [h, lookupKey_eraseKey_ne h]

theorem eraseKey_eraseKey {κ α : Type} [DecidableEq κ] (k : κ) (l : List (κ × α)) :
    eraseKey k (eraseKey k l) = eraseKey k l := by
  induction l with
  | nil => rfl
  | cons p rest ih =>
    by_cases h : p.1 = k
    · simp [eraseKey, h, ih]
    · simp [eraseKey, h, ih]

theorem insertKey_insertKey {κ α : Type} [DecidableEq κ] (k : κ) (a : α)
    (l : List (κ × α)) : insertKey k a (insertKey k a l) = insertKey k a l := by
  simp [insertKey, eraseKey, eraseKey_eraseKey]

theorem eraseKey_sublist {κ α : Type} [DecidableEq κ] (k : κ) (l : List (κ × α)) :
    List.Sublist (eraseKey k l) l := by
  induction l with
  | nil => simp [eraseKey]
  | cons p rest ih =>
    by_cases h : p.1 = k
    · simp only [eraseKey, h, if_pos]
      exact ih.cons p
    · simp only [eraseKey, h, if_neg, not_false_iff]
      exact ih.cons₂ p

theorem lookupKey_mem {κ α : Type} [DecidableEq κ] {k : κ} {l : List (κ × α)} {a : α}
    (h : lookupKey k l = some a) : (k, a) ∈ l := by
  induction l with
  | nil => simp [lookupKey] at h
  | cons p rest ih =>
    cases p with
    | mk p1 p2 =>
      by_cases hp : p1 = k
      · subst hp
        simp [lookupKey] at h
        subst h
        exact List.mem_cons_self _ _
      · simp [lookupKey, hp] at h
        exact List.mem_cons_of_mem _ (ih h)

/-! ## Helper lemmas: cache operations -/

theorem getPos_setPos (c : DedupCache) (u b : Nat) (e : PosEntry) (u2 b2 : Nat) :
    getPos (setPos c u b e) u2 b2
      = if (u2, b2) = ((u, b) : Nat × Nat) then some e else getPos c u2 b2 :=
  lookupKey_insertKey (u, b) (u2, b2) e c.pos

theorem getNeg_setPos (c : DedupCache) (u b : Nat) (e : PosEntry) (u2 b2 : Nat) :
    getNeg (setPos c u b e) u2 b2 = getNeg c u2 b2 := rfl

theorem getPos_setNeg (c : DedupCache) (u b ttl u2 b2 : Nat) :
    getPos (setNeg c u b ttl) u2 b2 = getPos c u2 b2 := rfl

theorem getNeg_setNeg (c : DedupCache) (u b ttl u2 b2 : Nat) :
    getNeg (setNeg c u b ttl) u2 b2
      = if (u2, b2) = ((u, b) : Nat × Nat) then some ttl else getNeg c u2 b2 :=
  lookupKey_insertKey (u, b) (u2, b2) ttl c.neg

theorem getPos_delPos (c : DedupCache) (u b u2 b2 : Nat) :
    getPos (delPos c u b) u2 b2
      = if (u2, b2) = ((u, b) : Nat × Nat) then none else getPos c u2 b2 :=
  lookupKey_eraseKey (u, b) (u2, b2) c.pos

theorem getNeg_delPos (c : DedupCache) (u b u2 b2 : Nat) :
    getNeg (delPos c u b) u2 b2 = getNeg c u2 b2 := rfl

theorem getPos_delNeg (c : DedupCache) (u b u2 b2 : Nat) :
    getPos (delNeg c u b) u2 b2 = getPos c u2 b2 := rfl

theorem getNeg_delNeg (c : DedupCache) (u b u2 b2 : Nat) :
    getNeg (delNeg c u b) u2 b2
      = if (u2, b2) = ((u, b) : Nat × Nat) then none else getNeg c u2 b2 :=
  lookupKey_eraseKey (u, b) (u2, b2) c.neg

/-! ## Helper lemmas: checkAndReserve branch behaviour -/

theorem checkAndReserve_posHit {cache : DedupCache} {u b : Nat} {e : PosEntry}
    (store : ReviewStore) (h : getPos cache u b = some e) :
    checkAndReserve cache store u b = (CheckResult.Duplicate (some e.review_id), cache) := by
  simp [checkAndReserve, h]

theorem checkAndReserve_negHit {cache : DedupCache} {u b t : Nat}
    (store : ReviewStore) (h1 : getPos cache u b = none) (h2 : getNeg cache u b = some t) :
    checkAndReserve cache store u b = (CheckResult.Unique, cache) := by
  simp [checkAndReserve, h1, h2]

theorem checkAndReserve_storeHit {cache : DedupCache} {store : ReviewStore}
    {u b : Nat} {r : Review} (h1 : getPos cache u b = none) (h2 : getNeg cache u b = none)
    (h3 : findRecord store u b = some r) :
    checkAndReserve cache store u b
      = (CheckResult.Duplicate (some r.review_id),
         setPos cache u b { review_id := r.review_id, ttl := posTTL }) := by
  simp [checkAndReserve, h1, h2, h3]

theorem checkAndReserve_storeMiss {cache : DedupCache} {store : ReviewStore}
    {u b : Nat} (h1 : getPos cache u b = none) (h2 : getNeg cache u b = none)
    (h3 : findRecord store u b = none) :
    checkAndReserve cache store u b = (CheckResult.Unique, setNeg cache u b negTTL) := by
  simp [checkAndReserve, h1, h2, h3]

/-! ## Helper lemmas: cache-entry exclusivity -/

theorem exclusiveCache_setPos {c : DedupCache} {u b : Nat} (e : PosEntry)
    (hx : exclusiveCache c) (hneg : getNeg c u b = none) :
    exclusiveCache (setPos c u b e) := by
  intro u2 b2
  rw [getPos_setPos, getNeg_setPos]
  by_cases h : (u2, b2) = ((u, b) : Nat × Nat)
  · right
    have hu : u2 = u := congrArg Prod.fst h
    have hb : b2 = b := congrArg Prod.snd h
    subst hu; subst hb
    exact hneg
  · rw [if_neg h]
    exact hx u2 b2

theorem exclusiveCache_setNeg {c : DedupCache} {u b : Nat} (ttl : Nat)
    (hx : exclusiveCache c) (hpos : getPos c u b = none) :
    exclusiveCache (setNeg c u b ttl) := by
  intro u2 b2
  rw [getPos_setNeg, getNeg_setNeg]
  by_cases h : (u2, b2) = ((u, b) : Nat × Nat)
  · left
    have hu : u2 = u := congrArg Prod.fst h
    have hb : b2 = b := congrArg Prod.snd h
    subst hu; subst hb
    exact hpos
  · rw [if_neg h]
    exact hx u2 b2

theorem exclusiveCache_onInsertSuccess (c : DedupCache) (u b rid : Nat)
    (hx : exclusiveCache c) : exclusiveCache (onInsertSuccess c u b rid) := by
  intro u2 b2
  unfold onInsertSuccess
  rw [getPos_delNeg, getNeg_delNeg, getPos_setPos, getNeg_setPos]
  by_cases h : (u2, b2) = ((u, b) : Nat × Nat)
  · right
    rw [if_pos h]
  · rw [if_neg h, if_neg h]
    exact hx u2 b2

theorem exclusiveCache_releaseCache (c : DedupCache) (u b : Nat)
    (hx : exclusiveCache c) : exclusiveCache (releaseCache c u b) := by
  intro u2 b2
  unfold releaseCache
  rw [getPos_delNeg, getNeg_delNeg, getPos_delPos, getNeg_delPos]
  by_cases h : (u2, b2) = ((u, b) : Nat × Nat)
  · left
    rw [if_pos h]
  · rw [if_neg h, if_neg h]
    exact hx u2 b2

theorem exclusiveCache_checkAndReserve (c : DedupCache) (s : ReviewStore) (u b : Nat)
    (hx : exclusiveCache c) : exclusiveCache (checkAndReserve c s u b).2 := by
  cases hp : getPos c u b with
  | some e => rw [checkAndReserve_posHit s hp]; exact hx
  | none =>
    cases hn : getNeg c u b with
    | some t => rw [checkAndReserve_negHit s hp hn]; exact hx
    | none =>
      cases hf : findRecord s u b with
      | some r =>
        rw [checkAndReserve_storeHit hp hn hf]
        exact exclusiveCache_setPos _ hx hn
      | none =>
        rw [checkAndReserve_storeMiss hp hn hf]
        exact exclusiveCache_setNeg _ hx hp

/-! ## Helper lemmas: Uniqueness Store -/

theorem hasRecord_cons_self (s : ReviewStore) (u b rid : Nat) :
    hasRecord (freshReview u b rid :: s) u b = true := by
  simp [hasRecord, findRecord, freshReview, List.find?_cons]

theorem insertReview_of_hasRecord {s : ReviewStore} {r : Review}
    (h : hasRecord s r.user_id r.book_id = true) : insertReview s r = (false, s) := by
  simp [insertReview, h]

theorem insertReview_of_fresh {s : ReviewStore} {r : Review}
    (h : hasRecord s r.user_id r.book_id = false) : insertReview s r = (true, r :: s) := by
  simp [insertReview, h]

theorem keysNodup_insertReview (s : ReviewStore) (r : Review) (hnd : keysNodup s) :
    keysNodup (insertReview s r).2 := by
  by_cases h : hasRecord s r.user_id r.book_id = true
  · rw [insertReview_of_hasRecord h]
    exact hnd
  · have hf : hasRecord s r.user_id r.book_id = false := by
      cases hh : hasRecord s r.user_id r.book_id
      · rfl
      · exact absurd hh h
    rw [insertReview_of_fresh hf]
    have hfind : findRecord s r.user_id r.book_id = none := by
      unfold hasRecord at hf
      exact Option.not_isSome_iff_eq_none.mp (by simp [hf])
    refine List.Pairwise.cons ?_ hnd
    intro x hx heq
    have hpred := List.find?_eq_none.mp hfind x hx
    simp only [Bool.and_eq_true, decide_eq_true_eq, not_and] at hpred
    have hu : r.user_id = x.user_id := congrArg Prod.fst heq
    have hb : r.book_id = x.book_id := congrArg Prod.snd heq
    exact hpred hu.symm hb.symm

/-! ## Helper lemmas: the concurrent insert race -/

theorem runAttempts_of_hasRecord (u b : Nat) (fs : List Bool) :
    ∀ (s : ReviewStore) (rid : Nat), hasRecord s u b = true →
      (runAttempts u b fs s rid).1.count AttemptOutcome.success = 0
      ∧ (runAttempts u b fs s rid).2 = s := by
  induction fs with
  | nil => intro s rid _; exact ⟨rfl, rfl⟩
  | cons f fs ih =>
    intro s rid h
    cases f with
    | true =>
      have hins : insertReview s (freshReview u b rid) = (false, s) :=
        insertReview_of_hasRecord (by simpa [freshReview] using h)
      have hrest := ih s (rid + 1) h
      simp [runAttempts, hins, List.count_cons, hrest.1, hrest.2]
    | false =>
      have hrest := ih s (rid + 1) h
      simp [runAttempts, List.count_cons, hrest.1, hrest.2]

theorem runAttempts_one_success (u b : Nat) (fs : List Bool) :
    ∀ (s : ReviewStore) (rid : Nat), hasRecord s u b = false → true ∈ fs →
      (runAttempts u b fs s rid).1.count AttemptOutcome.success = 1 := by
  induction fs with
  | nil => intro s rid _ hone; simp at hone
  | cons f fs ih =>
    intro s rid hfresh hone
    cases f with
    | true =>
      have hins : insertReview s (freshReview u b rid) = (true, freshReview u b rid :: s) :=
        insertReview_of_fresh (by simpa [freshReview] using hfresh)
      have h2 : hasRecord (freshReview u b rid :: s) u b = true :=
        hasRecord_cons_self s u b rid
      have h0 := (runAttempts_of_hasRecord u b fs (freshReview u b rid :: s) (rid + 1) h2).1
      simp [runAttempts, hins, List.count_cons, h0]
    | false =>
      have hone2 : true ∈ fs := by
        rcases List.mem_cons.mp hone with h | h
        · exact absurd h (by simp)
        · exact h
      have := ih s (rid + 1) hfresh hone2
      simp [runAttempts, List.count_cons, this]

theorem runAttempts_length (u b : Nat) (fs : List Bool) :
    ∀ (s : ReviewStore) (rid : Nat), (runAttempts u b fs s rid).1.length = fs.length := by
  induction fs with
  | nil => intro s rid; rfl
  | cons f fs ih =>
    intro s rid
    cases f with
    | true =>
      cases hins : insertReview s (freshReview u b rid) with
      | mk ok s1 => cases ok <;> simp [runAttempts, hins, ih]
    | false => simp [runAttempts, ih]

theorem count_outcomes (l : List AttemptOutcome) :
    l.count AttemptOutcome.success + l.count AttemptOutcome.duplicate = l.length := by
  induction l with
  | nil => rfl
  | cons a l ih =>
    cases a <;> simp [List.count_cons] <;> omega

/-! ## Helper lemmas: View Maintainer -/

theorem any_hash_eq_false (l : List EnrichedActivityItem) (it : EnrichedActivityItem)
    (h : ∀ x ∈ l, itemHash x ≠ itemHash it) :
    l.any (fun x => decide (itemHash x = itemHash it)) = false := by
  apply Bool.eq_false_iff.mpr
  intro hany
  rw [List.any_eq_true] at hany
  rcases hany with ⟨x, hx, hhash⟩
  exact h x hx (by simpa using hhash)

theorem pushTrim_of_fresh (cap : Nat) (it : EnrichedActivityItem)
    (l : List EnrichedActivityItem)
    (h : l.any (fun x => decide (itemHash x = itemHash it)) = false) :
    pushTrim cap it l = (it :: l).take cap := by
  simp [pushTrim, h]

theorem pushTrim_idem (cap : Nat) (it : EnrichedActivityItem)
    (l : List EnrichedActivityItem) :
    pushTrim cap it (pushTrim cap it l) = pushTrim cap it l := by
  by_cases h : l.any (fun x => decide (itemHash x = itemHash it)) = true
  · simp [pushTrim, h]
  · have h2 : l.any (fun x => decide (itemHash x = itemHash it)) = false := by
      simpa using h
    rw [pushTrim_of_fresh cap it l h2]
    cases cap with
    | zero => simp [pushTrim]
    | succ n =>
      have hany : ((it :: l).take (n + 1)).any
          (fun x => decide (itemHash x = itemHash it)) = true := by
        simp [List.take_succ_cons]
      simp [pushTrim, hany]

theorem pushTrim_length_le (cap : Nat) (it : EnrichedActivityItem)
    (l : List EnrichedActivityItem) (h : l.length ≤ cap) :
    (pushTrim cap it l).length ≤ cap := by
  unfold pushTrim
  split
  · exact h
  · simp [List.length_take]

theorem take_append_take {α : Type} (a l : List α) (n : Nat) :
    (a ++ l.take n).take n = (a ++ l).take n := by
  rw [List.take_append_eq_append_take, List.take_append_eq_append_take, List.take_take]
  congr 1
  exact congrArg l.take (Nat.min_eq_left (Nat.sub_le n a.length))

theorem applyAll_cons (v : FeedViews) (it : EnrichedActivityItem)
    (rest : List EnrichedActivityItem) :
    applyAll v (it :: rest) = applyAll (applyEvent v it) rest := rfl

theorem applyEvent_globalFeed_of_fresh (v : FeedViews) (it : EnrichedActivityItem)
    (h : ∀ x ∈ v.globalFeed, itemHash x ≠ itemHash it) :
    (applyEvent v it).globalFeed = (it :: v.globalFeed).take globalCap := by
  show pushTrim globalCap it v.globalFeed = _
  exact pushTrim_of_fresh _ _ _ (any_hash_eq_false _ _ h)

theorem userFeed_applyEvent_self (v : FeedViews) (it : EnrichedActivityItem) :
    userFeed (applyEvent v it) it.actorId
      = pushTrim perUserCap it (userFeed v it.actorId) := by
  simp [applyEvent, userFeed, lookupKey_insertKey_self]

theorem applyEvent_applyEvent (w : FeedViews) (j : EnrichedActivityItem) :
    applyEvent (applyEvent w j) j = applyEvent w j := by
  have huser := userFeed_applyEvent_self w j
  show ({ globalFeed := pushTrim globalCap j (applyEvent w j).globalFeed,
          userFeeds := insertKey j.actorId
            (pushTrim perUserCap j (userFeed (applyEvent w j) j.actorId))
            (applyEvent w j).userFeeds } : FeedViews) = applyEvent w j
  rw [huser, pushTrim_idem]
  show ({ globalFeed := pushTrim globalCap j (pushTrim globalCap j w.globalFeed),
          userFeeds := insertKey j.actorId
            (pushTrim perUserCap j (userFeed w j.actorId))
            (insertKey j.actorId
              (pushTrim perUserCap j (userFeed w j.actorId)) w.userFeeds) } : FeedViews)
        = applyEvent w j
  rw [pushTrim_idem, insertKey_insertKey]
  rfl

theorem applyAll_globalFeed (items : List EnrichedActivityItem) :
    ∀ (v : FeedViews), v.globalFeed.length ≤ globalCap →
    (∀ it ∈ items, ∀ x ∈ v.globalFeed, itemHash x ≠ itemHash it) →
    items.Pairwise (fun a b => itemHash a ≠ itemHash b) →
    (applyAll v items).globalFeed = (items.reverse ++ v.globalFeed).take globalCap := by
  induction items with
  | nil =>
    intro v hlen _ _
    show v.globalFeed = _
    simp [List.take_of_length_le hlen]
  | cons it rest ih =>
    intro v hlen hfresh hdist
    have hpair := List.pairwise_cons.mp hdist
    have hg1 : (applyEvent v it).globalFeed = (it :: v.globalFeed).take globalCap :=
      applyEvent_globalFeed_of_fresh v it (hfresh it (List.mem_cons_self it rest))
    have hlen1 : (applyEvent v it).globalFeed.length ≤ globalCap := by
      rw [hg1]
      simp [List.length_take]
    have hfresh1 : ∀ j ∈ rest, ∀ x ∈ (applyEvent v it).globalFeed,
        itemHash x ≠ itemHash j := by
      intro j hj x hx
      rw [hg1] at hx
      have hx2 : x ∈ it :: v.globalFeed := List.take_subset _ _ hx
      rcases List.mem_cons.mp hx2 with h | h
      · subst h
        exact hpair.1 j hj
      · exact hfresh j (List.mem_cons_of_mem it hj) x h
    rw [applyAll_cons, ih (applyEvent v it) hlen1 hfresh1 hpair.2, hg1,
        take_append_take]
    congr 1
    simp [List.reverse_cons, List.append_assoc]

theorem userFeed_length_le (v : FeedViews) (a : Nat)
    (hu : ∀ p ∈ v.userFeeds, p.2.length ≤ perUserCap) :
    (userFeed v a).length ≤ perUserCap := by
  unfold userFeed
  cases hl : lookupKey a v.userFeeds with
  | none => simp [perUserCap]
  | some l => simpa using hu (a, l) (lookupKey_mem hl)

theorem capOK_applyEvent (v : FeedViews) (it : EnrichedActivityItem) (h : capOK v) :
    capOK (applyEvent v it) := by
  obtain ⟨hg, hu⟩ := h
  constructor
  · exact pushTrim_length_le _ _ _ hg
  · intro p hp
    have hp2 : p ∈ (it.actorId, pushTrim perUserCap it (userFeed v it.actorId))
        :: eraseKey it.actorId v.userFeeds := hp
    rcases List.mem_cons.mp hp2 with h | h
    · subst h
      exact pushTrim_length_le _ _ _ (userFeed_length_le v it.actorId hu)
    · exact hu p ((eraseKey_sublist it.actorId v.userFeeds).subset h)

theorem head?_take_of_pos {α : Type} (a : α) (l : List α) (n : Nat) (h : 0 < n) :
    ((a :: l).take n).head? = some a := by
  cases n with
  | zero => exact absurd h (by simp)
  | succ m => simp [List.take_succ_cons]

/-! ## Helper lemmas: the update write path -/

theorem applyUpdate_review_id (rid a2 : Nat) (c2 : String) (r : Review) :
    (applyUpdate rid a2 c2 r).review_id = r.review_id := by
  unfold applyUpdate
  split <;> rfl

theorem reviewKey_applyUpdate (rid a2 : Nat) (c2 : String) (r : Review) :
    reviewKey (applyUpdate rid a2 c2 r) = reviewKey r := by
  unfold applyUpdate reviewKey
  split <;> rfl

theorem findRecord_map_applyUpdate (store : ReviewStore) (rid a2 : Nat) (c2 : String)
    (u b : Nat) :
    findRecord (store.map (applyUpdate rid a2 c2)) u b
      = (findRecord store u b).map (applyUpdate rid a2 c2) := by
  unfold findRecord
  rw [List.find?_map]
  have hpred : ((fun r : Review => decide (r.user_id = u) && decide (r.book_id = b))
        ∘ applyUpdate rid a2 c2)
      = (fun r : Review => decide (r.user_id = u) && decide (r.book_id = b)) := by
    funext r
    by_cases h : r.review_id = rid
    · simp [Function.comp, applyUpdate, h]
    · simp [Function.comp, applyUpdate, h]
  rw [hpred]

/-! ## Claim theorems -/

/-- C1: the persistent Uniqueness Store is the sole gatekeeper — an insert is
rejected iff a record with the key already exists, a rejected insert leaves
the store unchanged, at most one record per key ever exists, and among any
set of `checkAndReserve+insert` attempts for a fresh key (at least one of
which reaches the insert) exactly one succeeds and all others resolve to
Duplicate. -/
theorem uniqueness_store_sole_gatekeeper (s : ReviewStore) (u b : Nat) (fs : List Bool)
    (r : Review) (hfresh : hasRecord s u b = false) (hone : true ∈ fs) :
    ((insertReview s r).1 = false ↔ hasRecord s r.user_id r.book_id = true)
    ∧ ((insertReview s r).1 = false → (insertReview s r).2 = s)
    ∧ (∀ (s2 : ReviewStore) (r2 : Review), keysNodup s2 → keysNodup (insertReview s2 r2).2)
    ∧ (runAttempts u b fs s 0).1.count AttemptOutcome.success = 1
    ∧ (runAttempts u b fs s 0).1.count AttemptOutcome.duplicate = fs.length - 1
    ∧ (runAttempts u b fs s 0).1.length = fs.length := by
  have hsucc := runAttempts_one_success u b fs s 0 hfresh hone
  have hlen := runAttempts_length u b fs s 0
  have hcount := count_outcomes (runAttempts u b fs s 0).1
  refine ⟨?_, ?_, fun s2 r2 => keysNodup_insertReview s2 r2, hsucc, ?_, hlen⟩
  · by_cases h : hasRecord s r.user_id r.book_id = true
    · simp [insertReview, h]
    · simp [insertReview, h]
  · by_cases h : hasRecord s r.user_id r.book_id = true
    · simp [insertReview, h]
    · simp [insertReview, h]
  · omega

/-- Witness for C1: four attempts on an initially empty store, three of which
race past the cache check; exactly one insert succeeds. -/
theorem uniqueness_store_sole_gatekeeper_witness :
    hasRecord [] 123 42 = false ∧ true ∈ [true, true, false, true]
    ∧ (runAttempts 123 42 [true, true, false, true] [] 0).1.count AttemptOutcome.success = 1
    ∧ (runAttempts 123 42 [true, true, false, true] [] 0).1.count AttemptOutcome.duplicate = 3 :=
  ⟨by decide, by decide,
   (uniqueness_store_sole_gatekeeper [] 123 42 [true, true, false, true]
      (freshReview 123 42 0) (by decide) (by decide)).2.2.2.1,
   (uniqueness_store_sole_gatekeeper [] 123 42 [true, true, false, true]
      (freshReview 123 42 0) (by decide) (by decide)).2.2.2.2.1⟩

/-- C2 counterexample: the claim quantifies over every sequence of events,
but the View Maintainer only pushes to the front — a replayed event is
de-duplicated (length 2 instead of `min 3 C`) and an event arriving after
one with a later timestamp ends up at the head, so the list is not in
newest-first timestamp order. -/
theorem feed_retention_as_stated_false :
    (applyAll emptyViews [sampleItem 1 5, sampleItem 2 3, sampleItem 1 5]).globalFeed
      = [sampleItem 2 3, sampleItem 1 5]
    ∧ (applyAll emptyViews [sampleItem 1 5, sampleItem 2 3, sampleItem 1 5]).globalFeed.length
      ≠ min 3 globalCap
    ∧ (sampleItem 2 3).timestamp < (sampleItem 1 5).timestamp := by
  refine ⟨by decide, by decide, by decide⟩

/-- C2 (amended): for every sequence of pairwise-distinct events (by content
hash) applied in nondecreasing timestamp order to the initially empty views,
the global FeedList equals the most recently applied `C` items newest-first
(`items.reverse.take C`), its length is `min N C`, it is sorted newest-first
by timestamp, the per-actor cap is below the global cap, and after every
operation every FeedList's length stays within its configured cap. -/
theorem feed_view_bounded_retention (items : List EnrichedActivityItem)
    (hdist : items.Pairwise (fun a b => itemHash a ≠ itemHash b))
    (hmono : items.Pairwise (fun a b => a.timestamp ≤ b.timestamp)) :
    (applyAll emptyViews items).globalFeed = items.reverse.take globalCap
    ∧ (applyAll emptyViews items).globalFeed.length = min items.length globalCap
    ∧ (applyAll emptyViews items).globalFeed.Pairwise
        (fun a b => b.timestamp ≤ a.timestamp)
    ∧ perUserCap < globalCap
    ∧ ∀ (v : FeedViews) (it : EnrichedActivityItem), capOK v → capOK (applyEvent v it) := by
  have hmain := applyAll_globalFeed items emptyViews (by simp [emptyViews])
      (fun it _ x hx => absurd hx (by simp [emptyViews])) hdist
  rw [show emptyViews.globalFeed = [] from rfl, List.append_nil] at hmain
  refine ⟨hmain, ?_, ?_, by decide, fun v it => capOK_applyEvent v it⟩
  · rw [hmain, List.length_take, List.length_reverse, Nat.min_comm]
  · rw [hmain]
    have hrev : items.reverse.Pairwise (fun a b => b.timestamp ≤ a.timestamp) :=
      (List.pairwise_reverse).mpr hmono
    exact hrev.sublist (List.take_sublist _ _)

/-- Witness for C2 at two distinct events in timestamp order. -/
theorem feed_view_bounded_retention_witness :
    ([sampleItem 1 1, sampleItem 2 2] : List EnrichedActivityItem).Pairwise
        (fun a b => itemHash a ≠ itemHash b)
    ∧ ([sampleItem 1 1, sampleItem 2 2] : List EnrichedActivityItem).Pairwise
        (fun a b => a.timestamp ≤ b.timestamp)
    ∧ (applyAll emptyViews [sampleItem 1 1, sampleItem 2 2]).globalFeed
        = [sampleItem 2 2, sampleItem 1 1] :=
  ⟨by decide, by decide,
   (feed_view_bounded_retention [sampleItem 1 1, sampleItem 2 2]
      (by decide) (by decide)).1⟩

/-- C3: `checkAndReserve` follows the three-step lookup exactly — a positive
cache hit returns `Duplicate` without consulting the store, a negative cache
hit returns `Unique` without consulting the store, and otherwise the store is
queried, writing a positive entry (TTL longer than the negative TTL) on a
hit and a negative entry (shorter TTL) on a miss. -/
theorem checkAndReserve_three_step_lookup :
    (∀ (cache : DedupCache) (store : ReviewStore) (u b : Nat) (e : PosEntry),
        getPos cache u b = some e →
        checkAndReserve cache store u b = (CheckResult.Duplicate (some e.review_id), cache)
        ∧ ∀ store2 : ReviewStore, checkAndReserve cache store2 u b
            = checkAndReserve cache store u b)
    ∧ (∀ (cache : DedupCache) (store : ReviewStore) (u b t : Nat),
        getPos cache u b = none → getNeg cache u b = some t →
        checkAndReserve cache store u b = (CheckResult.Unique, cache)
        ∧ ∀ store2 : ReviewStore, checkAndReserve cache store2 u b
            = checkAndReserve cache store u b)
    ∧ (∀ (cache : DedupCache) (store : ReviewStore) (u b : Nat) (r : Review),
        getPos cache u b = none → getNeg cache u b = none →
        findRecord store u b = some r →
        checkAndReserve cache store u b
          = (CheckResult.Duplicate (some r.review_id),
             setPos cache u b { review_id := r.review_id, ttl := posTTL }))
    ∧ (∀ (cache : DedupCache) (store : ReviewStore) (u b : Nat),
        getPos cache u b = none → getNeg cache u b = none →
        findRecord store u b = none →
        checkAndReserve cache store u b = (CheckResult.Unique, setNeg cache u b negTTL))
    ∧ negTTL < posTTL := by
  refine ⟨?_, ?_, ?_, ?_, by decide⟩
  · intro cache store u b e h
    exact ⟨checkAndReserve_posHit store h,
      fun store2 => (checkAndReserve_posHit store2 h).trans
        (checkAndReserve_posHit store h).symm⟩
  · intro cache store u b t h1 h2
    exact ⟨checkAndReserve_negHit store h1 h2,
      fun store2 => (checkAndReserve_negHit store2 h1 h2).trans
        (checkAndReserve_negHit store h1 h2).symm⟩
  · intro cache store u b r h1 h2 h3
    exact checkAndReserve_storeHit h1 h2 h3
  · intro cache store u b h1 h2 h3
    exact checkAndReserve_storeMiss h1 h2 h3

/-- Witness for C3 at a warm positive cache and at a fully cold state. -/
theorem checkAndReserve_three_step_lookup_witness :
    getPos (setPos emptyCache 1 2 { review_id := 7, ttl := posTTL }) 1 2
      = some { review_id := 7, ttl := posTTL }
    ∧ checkAndReserve (setPos emptyCache 1 2 { review_id := 7, ttl := posTTL }) [] 1 2
      = (CheckResult.Duplicate (some 7),
         setPos emptyCache 1 2 { review_id := 7, ttl := posTTL })
    ∧ checkAndReserve emptyCache [] 1 2
      = (CheckResult.Unique, setNeg emptyCache 1 2 negTTL) :=
  ⟨by decide,
   (checkAndReserve_three_step_lookup.1
      (setPos emptyCache 1 2 { review_id := 7, ttl := posTTL }) [] 1 2
      { review_id := 7, ttl := posTTL } (by decide)).1,
   checkAndReserve_three_step_lookup.2.2.2.1 emptyCache [] 1 2
      (by decide) (by decide) (by decide)⟩

/-- C4: cache-entry exclusivity (at most one of positive/negative per key)
is preserved by `checkAndReserve`, by the successful-insert cache write, and
by `release`; a successful insert writes the positive entry and clears the
negative one. -/
theorem cache_entry_exclusivity (c : DedupCache) (s : ReviewStore) (u b rid : Nat)
    (hx : exclusiveCache c) :
    exclusiveCache (checkAndReserve c s u b).2
    ∧ exclusiveCache (onInsertSuccess c u b rid)
    ∧ getPos (onInsertSuccess c u b rid) u b = some { review_id := rid, ttl := posTTL }
    ∧ getNeg (onInsertSuccess c u b rid) u b = none
    ∧ exclusiveCache (releaseCache c u b) := by
  refine ⟨exclusiveCache_checkAndReserve c s u b hx,
          exclusiveCache_onInsertSuccess c u b rid hx, ?_, ?_,
          exclusiveCache_releaseCache c u b hx⟩
  · unfold onInsertSuccess
    rw [getPos_delNeg, getPos_setPos, if_pos rfl]
  · unfold onInsertSuccess
    rw [getNeg_delNeg, if_pos rfl]

/-- Witness for C4 at the empty cache. -/
theorem cache_entry_exclusivity_witness :
    exclusiveCache emptyCache
    ∧ getPos (onInsertSuccess emptyCache 1 2 7) 1 2
      = some { review_id := 7, ttl := posTTL } :=
  ⟨fun _ _ => Or.inl rfl,
   (cache_entry_exclusivity emptyCache [] 1 2 7 (fun _ _ => Or.inl rfl)).2.2.1⟩

/-- C5: event-handler idempotence — applying the same event twice yields the
same global and per-actor FeedLists as applying it once, both at the
View Maintainer level and at the review-event handler level. -/
theorem event_handler_idempotent (v : FeedViews) (it : EnrichedActivityItem)
    (f : CatalogFetch) (nm : String) (e : ReviewEvent) :
    applyEvent (applyEvent v it) it = applyEvent v it
    ∧ onReviewEvent f nm e (onReviewEvent f nm e v) = onReviewEvent f nm e v :=
  ⟨applyEvent_applyEvent v it,
   applyEvent_applyEvent v (itemOfReviewEvent e nm (enrichReviewEvent f))⟩

/-- C6: when the catalog call fails (timeout, non-2xx, network error) the
Enrichment Resolver returns the sentinel fallback instead of an error, and
the enriched item still lands at the head of both the global and the
per-actor FeedLists — the event is never dropped. -/
theorem enrichment_failure_never_drops (f : CatalogFetch) (nm : String) (e : ReviewEvent)
    (v : FeedViews) (hf : isFailure f = true)
    (hg : ∀ x ∈ v.globalFeed,
        itemHash x ≠ itemHash (itemOfReviewEvent e nm (unknownTitle, unknownAuthor)))
    (hu : ∀ x ∈ userFeed v e.user_id,
        itemHash x ≠ itemHash (itemOfReviewEvent e nm (unknownTitle, unknownAuthor))) :
    enrichReviewEvent f = (unknownTitle, unknownAuthor)
    ∧ (onReviewEvent f nm e v).globalFeed.head?
        = some (itemOfReviewEvent e nm (unknownTitle, unknownAuthor))
    ∧ (userFeed (onReviewEvent f nm e v) e.user_id).head?
        = some (itemOfReviewEvent e nm (unknownTitle, unknownAuthor)) := by
  have hfb : enrichReviewEvent f = (unknownTitle, unknownAuthor) := by
    cases f with
    | success t a => simp [isFailure] at hf
    | httpError s => rfl
    | timeout => rfl
    | networkError => rfl
  refine ⟨hfb, ?_, ?_⟩
  · unfold onReviewEvent
    rw [hfb, applyEvent_globalFeed_of_fresh v _ hg]
    exact head?_take_of_pos _ _ _ (by decide)
  · unfold onReviewEvent
    rw [hfb]
    show (userFeed (applyEvent v (itemOfReviewEvent e nm (unknownTitle, unknownAuthor)))
        (itemOfReviewEvent e nm (unknownTitle, unknownAuthor)).actorId).head?
      = some (itemOfReviewEvent e nm (unknownTitle, unknownAuthor))
    rw [userFeed_applyEvent_self]
    have hact : (itemOfReviewEvent e nm (unknownTitle, unknownAuthor)).actorId
        = e.user_id := rfl
    rw [hact, pushTrim_of_fresh _ _ _ (any_hash_eq_false _ _ hu)]
    exact head?_take_of_pos _ _ _ (by decide)

/-- Witness for C6: a timed-out catalog call still places the item, with the
sentinel labels, at the head of the global feed. -/
theorem enrichment_failure_never_drops_witness :
    isFailure CatalogFetch.timeout = true
    ∧ (onReviewEvent CatalogFetch.timeout "john" sampleEvent emptyViews).globalFeed.head?
      = some (itemOfReviewEvent sampleEvent "john" (unknownTitle, unknownAuthor)) :=
  ⟨rfl,
   (enrichment_failure_never_drops CatalogFetch.timeout "john" sampleEvent emptyViews rfl
      (fun x hx => absurd hx (by simp [emptyViews]))
      (fun x hx => absurd hx (by simp [emptyViews, userFeed, lookupKey]))).2.1⟩

/-- C7: `release` deletes both the positive and the negative cache entry for
the key, so a subsequent `checkAndReserve` finds neither entry, falls
through to the Uniqueness Store, and returns `Unique` exactly when no record
exists — never a stale `Duplicate` from a leftover cache entry. -/
theorem release_clears_both_cache_entries (c : DedupCache) (s : ReviewStore) (u b : Nat) :
    getPos (releaseCache c u b) u b = none
    ∧ getNeg (releaseCache c u b) u b = none
    ∧ ((checkAndReserve (releaseCache c u b) s u b).1 = CheckResult.Unique
        ↔ hasRecord s u b = false)
    ∧ (hasRecord s u b = false →
        checkAndReserve (releaseCache c u b) s u b
          = (CheckResult.Unique, setNeg (releaseCache c u b) u b negTTL)) := by
  have hp : getPos (releaseCache c u b) u b = none := by
    unfold releaseCache
    rw [getPos_delNeg, getPos_delPos, if_pos rfl]
  have hn : getNeg (releaseCache c u b) u b = none := by
    unfold releaseCache
    rw [getNeg_delNeg, if_pos rfl]
  refine ⟨hp, hn, ?_, ?_⟩
  · cases hf : findRecord s u b with
    | some r =>
      rw [checkAndReserve_storeHit hp hn hf]
      simp [hasRecord, hf]
    | none =>
      rw [checkAndReserve_storeMiss hp hn hf]
      simp [hasRecord, hf]
  · intro hfr
    have hf : findRecord s u b = none := by
      unfold hasRecord at hfr
      exact Option.not_isSome_iff_eq_none.mp (by simp [hfr])
    exact checkAndReserve_storeMiss hp hn hf

/-- Witness for C7: after releasing a warm positive entry over an empty
store, the next check returns `Unique` from the store, not a stale
`Duplicate`. -/
theorem release_clears_both_cache_entries_witness :
    hasRecord [] 1 2 = false
    ∧ checkAndReserve
        (releaseCache (setPos emptyCache 1 2 { review_id := 7, ttl := posTTL }) 1 2) [] 1 2
      = (CheckResult.Unique,
         setNeg (releaseCache (setPos emptyCache 1 2 { review_id := 7, ttl := posTTL }) 1 2)
           1 2 negTTL) :=
  ⟨by decide,
   (release_clears_both_cache_entries
      (setPos emptyCache 1 2 { review_id := 7, ttl := posTTL }) [] 1 2).2.2.2 (by decide)⟩

/-- C8: Feed Reader pagination is an offset/limit slice — two pages of five
concatenate to one page of ten, and an offset at or past the list length
yields the empty page rather than an error, on both the global and the
per-actor lists. -/
theorem pagination_offset_limit_slice (v : FeedViews) (a : Nat) :
    getGlobal v 5 0 ++ getGlobal v 5 5 = getGlobal v 10 0
    ∧ (∀ limit offset : Nat, v.globalFeed.length ≤ offset → getGlobal v limit offset = [])
    ∧ getForActor v a 5 0 ++ getForActor v a 5 5 = getForActor v a 10 0
    ∧ (∀ limit offset : Nat, (userFeed v a).length ≤ offset →
        getForActor v a limit offset = []) := by
  refine ⟨?_, ?_, ?_, ?_⟩
  · show (v.globalFeed.drop 0).take 5 ++ (v.globalFeed.drop 5).take 5
        = (v.globalFeed.drop 0).take 10
    rw [List.drop_zero]
    exact (List.take_add v.globalFeed 5 5).symm
  · intro limit offset h
    show (v.globalFeed.drop offset).take limit = []
    rw [List.drop_eq_nil_of_le h]
    exact List.take_nil
  · show ((userFeed v a).drop 0).take 5 ++ ((userFeed v a).drop 5).take 5
        = ((userFeed v a).drop 0).take 10
    rw [List.drop_zero]
    exact (List.take_add (userFeed v a) 5 5).symm
  · intro limit offset h
    show ((userFeed v a).drop offset).take limit = []
    rw [List.drop_eq_nil_of_le h]
    exact List.take_nil

/-- Witness for C8: an out-of-range offset on the empty views returns the
empty page. -/
theorem pagination_offset_limit_slice_witness :
    emptyViews.globalFeed.length ≤ 2 ∧ getGlobal emptyViews 3 2 = [] :=
  ⟨by decide, (pagination_offset_limit_slice emptyViews 0).2.1 3 2 (by decide)⟩

/-- C9: the write path validates the target against the catalog before any
uniqueness check or insert — a missing book yields 404, an unreachable
catalog yields 503, and in both cases the store, the dedup cache, and the
published-event log are left exactly unchanged. -/
theorem create_review_fails_closed (st : WriteState) (r : Review) (ts : Nat) :
    createReview CatalogResp.notFound st r ts = (CreateResult.bookMissing, st)
    ∧ createReview CatalogResp.unavailable st r ts = (CreateResult.catalogDown, st)
    ∧ (createReview CatalogResp.notFound st r ts).2.store = st.store
    ∧ (createReview CatalogResp.notFound st r ts).2.cache = st.cache
    ∧ (createReview CatalogResp.notFound st r ts).2.published = st.published
    ∧ (createReview CatalogResp.unavailable st r ts).2.store = st.store
    ∧ (createReview CatalogResp.unavailable st r ts).2.cache = st.cache
    ∧ (createReview CatalogResp.unavailable st r ts).2.published = st.published :=
  ⟨rfl, rfl, rfl, rfl, rfl, rfl, rfl, rfl⟩

/-- C10: updating a record changes only its mutable content fields — the
dedup cache is untouched, every record keeps its identifier and composite
key, and `checkAndReserve` returns for every key exactly what it returned
before the update. -/
theorem update_review_frame (st : WriteState) (rid rating2 : Nat) (content2 : String) :
    (updateReview st rid rating2 content2).cache = st.cache
    ∧ (updateReview st rid rating2 content2).published = st.published
    ∧ (updateReview st rid rating2 content2).store.map reviewKey = st.store.map reviewKey
    ∧ ∀ u b, checkAndReserve (updateReview st rid rating2 content2).cache
        (updateReview st rid rating2 content2).store u b
      = checkAndReserve st.cache st.store u b := by
  refine ⟨rfl, rfl, ?_, ?_⟩
  · show (st.store.map (applyUpdate rid rating2 content2)).map reviewKey = _
    rw [List.map_map]
    congr 1
    funext r
    exact reviewKey_applyUpdate rid rating2 content2 r
  · intro u b
    show checkAndReserve st.cache (updateReview st rid rating2 content2).store u b = _
    cases hp : getPos st.cache u b with
    | some e => rw [checkAndReserve_posHit _ hp, checkAndReserve_posHit _ hp]
    | none =>
      cases hn : getNeg st.cache u b with
      | some t => rw [checkAndReserve_negHit _ hp hn, checkAndReserve_negHit _ hp hn]
      | none =>
        cases hf : findRecord st.store u b with
        | some r =>
          have hf2 : findRecord (updateReview st rid rating2 content2).store u b
              = some (applyUpdate rid rating2 content2 r) := by
            show findRecord (st.store.map (applyUpdate rid rating2 content2)) u b = _
            rw [findRecord_map_applyUpdate, hf]
            rfl
          rw [checkAndReserve_storeHit hp hn hf2, checkAndReserve_storeHit hp hn hf,
              applyUpdate_review_id]
        | none =>
          have hf2 : findRecord (updateReview st rid rating2 content2).store u b = none := by
            show findRecord (st.store.map (applyUpdate rid rating2 content2)) u b = _
            rw [findRecord_map_applyUpdate, hf]
            rfl
          rw [checkAndReserve_storeMiss hp hn hf2, checkAndReserve_storeMiss hp hn hf]
